import Mathlib

/-!
# Disk-usage walk of `bench.go`

A shallow embedding of `DiskUsageNew`, `GetDirDiskUsage` and `GetDirInodeUsage`
(package `bench`, file `bench.go`) together with the part of the Go standard
library they drive: `os.Stat`, `path/filepath.Walk`, `strings.Fields`,
`strconv.ParseUint`.

The file system is not part of the program, so it is an explicit argument: a
value of type `FS` records what the operating system answers to every query
the walk can make (the `os.Stat` of the root, the `os.Lstat` of every listed
name, the outcome of every directory read).  Machine integers are natural
numbers reduced modulo `2^64` where the Go code can wrap.

`filepath.Walk` is embedded from the Go standard library: it reads a directory
before it calls the callback for it, and a `SkipDir` answered for a
non-directory skips the remaining names of the parent directory.  The subprocess
of the two baseline functions is likewise an argument (`Proc`): its output, its
exit status and the failures of starting it.
-/

namespace Bench

/-! ## Data model -/

/-- Modulus of Go's `uint64`. -/
def u64 : Nat := 2 ^ 64

/-- Go's conversion `uint64(x)` of a signed integer (two's complement). -/
def toUint64 (x : Int) : Nat := (x % (2 ^ 64 : Int)).toNat

/-- Errors returned by the operating system (`os.Stat`, `os.Lstat`, directory reads). -/
inductive OsError where
  | notExist
  | permission
  | ioFailure
  deriving DecidableEq, Repr

/-- Go's `os.IsNotExist(err)` for a non-nil `err`. -/
def os_IsNotExist : OsError → Bool
  | .notExist => true
  | _ => false

/-- The fields of `syscall.Stat_t` the program reads
(`Dev`, `Ino`, `Nlink` are unsigned, `Blocks` is a signed 64-bit count of 512-byte blocks). -/
structure Stat_t where
  Dev : Nat
  Ino : Nat
  Nlink : Nat
  Blocks : Int
  deriving DecidableEq, Repr

/-- What `info.Sys()` returns: `nil`, a `*syscall.Stat_t`, or a value of another dynamic type. -/
inductive Sys where
  | nil
  | stat (s : Stat_t)
  | unknown
  deriving DecidableEq, Repr

/-- Go's `type UsageInfo struct { Bytes, Inodes uint64 }`. -/
structure UsageInfo where
  Bytes : Nat
  Inodes : Nat
  deriving DecidableEq, Repr

/-- The non-nil `error` values the program builds or passes on; `SkipDir` is
`filepath.SkipDir`, the others stand for the `fmt.Errorf` call sites. -/
inductive Error where
  | invalidDirectory
  | couldNotStat (cause : OsError)
  | unsupportedRootFileinfo
  | unableToCount (cause : OsError)
  | sysIsNil
  | unsupportedFileinfo
  | SkipDir
  | duFailed
  | cannotParse
  | findFailed
  | pipeFailed
  | startFailed
  deriving DecidableEq, Repr

mutual
/-- A file-system entry for which `os.Lstat` succeeded, with everything the walk
can observe below it. `unreadable` is a directory whose `readDirNames` fails. -/
inductive Node where
  | file (name : String) (sys : Sys)
  | dir (name : String) (sys : Sys) (names : Listing)
  | unreadable (name : String) (sys : Sys) (err : OsError)
/-- The names a successful directory read returned, in order, each with the
answer `os.Lstat` gives for it afterwards: `gone` when it fails, `entry` when it succeeds. -/
inductive Listing where
  | nil
  | gone (name : String) (err : OsError) (rest : Listing)
  | entry (n : Node) (rest : Listing)
end

/-- Go's `info.IsDir()`. -/
def Node.isDir : Node → Bool
  | .file _ _ => false
  | .dir _ _ _ => true
  | .unreadable _ _ _ => true

/-- Go's `info.Sys()`. -/
def Node.sys : Node → Sys
  | .file _ s => s
  | .dir _ s _ => s
  | .unreadable _ s _ => s

/-- The answers of the operating system for one call on a path: `stat` is the
result of `os.Stat(dir)` (the `Sys()` of the returned info), `lstat` is what
`filepath.Walk` sees when it starts at the same path. -/
structure FS where
  stat : Except OsError Sys
  lstat : Except OsError Node

/-- The variables captured by the walk closure: `usage` and `dedupedInodes`
(the key set of the Go map, most recent insertion first). -/
structure Closure where
  usage : UsageInfo
  dedupedInodes : List Nat
  deriving DecidableEq, Repr

/-- The three shapes of the `(info, err)` pair `filepath.Walk` passes to its callback. -/
inductive Visit where
  | lstatFailed (err : OsError)
  | readFailed (sys : Sys) (err : OsError)
  | ok (sys : Sys)
  deriving DecidableEq, Repr

/-! ## `DiskUsageNew` -/

/-- The two statements `usage.Bytes += uint64(s.Blocks) * uint64(512); usage.Inodes++`. -/
def count (u : UsageInfo) (s : Stat_t) : UsageInfo :=
  { Bytes := (u.Bytes + (toUint64 s.Blocks * 512) % u64) % u64,
    Inodes := (u.Inodes + 1) % u64 }

/-- The closure passed to `filepath.Walk` in `DiskUsageNew` (bench.go lines 43-79):
the captured variables before the call, the arguments, the captured variables
after the call and the returned error. -/
def walkFn (rootDevId : Nat) (c : Closure) : Visit → Closure × Option Error
  | .lstatFailed err =>
      if os_IsNotExist err then (c, none) else (c, some (.unableToCount err))
  | .readFailed _ err =>
      if os_IsNotExist err then (c, none) else (c, some (.unableToCount err))
  | .ok .nil => (c, some .sysIsNil)
  | .ok .unknown => (c, some .unsupportedFileinfo)
  | .ok (.stat s) =>
      if s.Dev ≠ rootDevId then (c, some .SkipDir)
      else if s.Nlink > 1 then
        if s.Ino ∈ c.dedupedInodes then (c, none)
        else ({ usage := count c.usage s, dedupedInodes := s.Ino :: c.dedupedInodes }, none)
      else ({ c with usage := count c.usage s }, none)

/-- Result of a walk: the callback state, the error, and two ghost counters that
no branch reads: `fsOps` counts `Stat`/`Lstat`/directory reads, `calls` counts
invocations of the callback. -/
structure Outcome (σ : Type) where
  state : σ
  err : Option Error
  fsOps : Nat
  calls : Nat

/-- Add to the ghost counters of an outcome. -/
def Outcome.bump {σ : Type} (r : Outcome σ) (ops calls : Nat) : Outcome σ :=
  { r with fsOps := r.fsOps + ops, calls := r.calls + calls }

mutual
/-- Go's `filepath.walk(path, info, walkFn)` of the standard library, as in
current Go releases: a non-directory is handed to the callback; a directory is
read first (`names, err := readDirNames(path)`), the callback is called once
with the read error (`err1 := walkFn(path, info, err)`), and the names are
walked only when both are nil. -/
def walk {σ : Type} (fn : σ → Visit → σ × Option Error) : Node → σ → Outcome σ
  | .file _ sys, s =>
      let r := fn s (.ok sys)
      ⟨r.1, r.2, 0, 1⟩
  | .unreadable _ sys err, s =>
      let r := fn s (.readFailed sys err)
      ⟨r.1, r.2, 1, 1⟩
  | .dir _ sys names, s =>
      let r := fn s (.ok sys)
      match r.2 with
      | some err1 => ⟨r.1, some err1, 1, 1⟩
      | none => (walkNames fn names r.1).bump 1 1
/-- The loop `for _, name := range names` of `filepath.walk`: a failed `Lstat`
goes to the callback and stops the loop unless the callback answers nil or
`SkipDir`; an error of the recursive `walk` stops the loop unless it is
`SkipDir` from a directory. A `SkipDir` answered for a non-directory therefore
ends the loop over its parent directory. -/
def walkNames {σ : Type} (fn : σ → Visit → σ × Option Error) : Listing → σ → Outcome σ
  | .nil, s => ⟨s, none, 0, 0⟩
  | .gone _ err rest, s =>
      let r := fn s (.lstatFailed err)
      if r.2 ≠ none ∧ r.2 ≠ some .SkipDir then ⟨r.1, r.2, 1, 1⟩
      else (walkNames fn rest r.1).bump 1 1
  | .entry n rest, s =>
      let r := walk fn n s
      if r.err ≠ none ∧ (n.isDir = false ∨ r.err ≠ some .SkipDir) then r.bump 1 0
      else (walkNames fn rest r.state).bump (r.fsOps + 1) r.calls
end

/-- The end of `filepath.Walk`: `if err == SkipDir { return nil }; return err`. -/
def skipDirToNil (err : Option Error) : Option Error :=
  if err = some .SkipDir then none else err

/-- Go's `filepath.Walk(root, fn)`: `Lstat` the root, call the callback with the
error or walk the node, and turn a final `SkipDir` into nil. -/
def Walk {σ : Type} (root : Except OsError Node) (fn : σ → Visit → σ × Option Error)
    (s : σ) : Outcome σ :=
  match root with
  | .error e =>
      let r := fn s (.lstatFailed e)
      ⟨r.1, skipDirToNil r.2, 1, 1⟩
  | .ok n =>
      let r := walk fn n s
      ⟨r.state, skipDirToNil r.err, r.fsOps + 1, r.calls⟩

/-- What a call of `DiskUsageNew` returns (`usage`, `err`), with the ghost counters. -/
structure Run where
  usage : UsageInfo
  err : Option Error
  fsOps : Nat
  calls : Nat
  deriving DecidableEq, Repr

/-- Go's `DiskUsageNew(dir)` (bench.go lines 21-82) against the file system `fs`.
The error of `filepath.Walk` is assigned to `err` and never read: the function
ends with `return usage, nil`. -/
def DiskUsageNew (fs : FS) (dir : String) : Run :=
  let usage : UsageInfo := ⟨0, 0⟩
  if dir = "" then ⟨usage, some .invalidDirectory, 0, 0⟩
  else
    match fs.stat with
    | .error e => ⟨usage, some (.couldNotStat e), 1, 0⟩
    | .ok (.stat rootStat) =>
        let r := Walk fs.lstat (walkFn rootStat.Dev) ⟨usage, []⟩
        ⟨r.state.usage, none, r.fsOps + 1, r.calls⟩
    | .ok _ => ⟨usage, some .unsupportedRootFileinfo, 1, 0⟩

/-! ## The subprocess baselines `GetDirDiskUsage` and `GetDirInodeUsage` -/

/-- What the two baseline functions observe of the subprocess they start:
whether setting up the pipes or starting fails, what the process writes, whether
reading its standard output fails, and its exit status (`cmd.Wait()` returns a
non-nil error exactly when the status is not zero, a killed process included). -/
structure Proc where
  stdoutPipeErr : Bool
  stderrPipeErr : Bool
  startErr : Bool
  stdout : String
  stdoutReadErr : Bool
  stderr : String
  exitStatus : Int

/-- How a call ends: it returns `(value, err)`, it panics (index out of range),
or `log.Fatal` ends the process. -/
inductive Ret where
  | ret (value : Nat) (err : Option Error)
  | panic
  | fatal
  deriving DecidableEq, Repr

/-- Go's `unicode.IsSpace`. -/
def unicode_IsSpace (c : Char) : Bool :=
  let n := c.toNat
  (9 ≤ n && n ≤ 13) || n == 32 || n == 133 || n == 160 || n == 5760 ||
    (8192 ≤ n && n ≤ 8202) || n == 8232 || n == 8233 || n == 8239 || n == 8287 || n == 12288

/-- Worker of `strings_Fields`: `cur` is the field being read, reversed. -/
def fieldsAux (cur : List Char) : List Char → List (List Char)
  | [] => if cur = [] then [] else [cur.reverse]
  | c :: cs =>
      if unicode_IsSpace c then
        if cur = [] then fieldsAux [] cs else cur.reverse :: fieldsAux [] cs
      else fieldsAux (c :: cur) cs

/-- Go's `strings.Fields(s)` on decoded text: the maximal runs of non-space characters. -/
def strings_Fields (s : String) : List (List Char) := fieldsAux [] s.toList

/-- Go's `strconv.ParseUint(s, 10, 64)`: `none` is a non-nil error (empty input,
a character that is not a decimal digit, or a value above `2^64 - 1`). -/
def strconv_ParseUint (s : List Char) : Option Nat :=
  if s = [] then none
  else if s.all (fun c => decide (48 ≤ c.toNat) && decide (c.toNat ≤ 57)) then
    let n := s.foldl (fun n c => 10 * n + (c.toNat - 48)) 0
    if n < u64 then some n else none
  else none

/-- Go's `GetDirDiskUsage(dir, timeout)` (bench.go lines 84-127) for a subprocess
behaving as `p`. The captured `stderr` only appears in the error message. -/
def GetDirDiskUsage (p : Proc) (dir : String) : Ret :=
  if dir = "" then .ret 0 (some .invalidDirectory)
  else if p.stdoutPipeErr then .ret 0 (some .pipeFailed)
  else if p.stderrPipeErr then .ret 0 (some .pipeFailed)
  else if p.startErr then .ret 0 (some .startFailed)
  else if p.stdoutReadErr then .fatal
  else if p.exitStatus ≠ 0 then .ret 0 (some .duFailed)
  else
    match strings_Fields p.stdout with
    | [] => .panic
    | field :: _ =>
        match strconv_ParseUint field with
        | none => .ret 0 (some .cannotParse)
        | some usageInKb => .ret (usageInKb * 1024 % u64) none

/-- Go's `byteCounter`: an `io.Writer` that counts the bytes written to it. -/
structure byteCounter where
  bytesWritten : Nat
  deriving DecidableEq, Repr

/-- Go's `(*byteCounter).Write(p)` for a slice of `len` bytes:
`b.bytesWritten += uint64(len(p))`. -/
def byteCounter.Write (b : byteCounter) (len : Nat) : byteCounter :=
  ⟨(b.bytesWritten + len % u64) % u64⟩

/-- Go's `GetDirInodeUsage(dir, timeout)` (bench.go lines 129-154) for a subprocess
behaving as `p`: the value is the number of bytes the subprocess wrote to the
`byteCounter` installed as its standard output. -/
def GetDirInodeUsage (p : Proc) (dir : String) : Ret :=
  let counter : byteCounter := ⟨0⟩
  if dir = "" then .ret 0 (some .invalidDirectory)
  else if p.startErr then .ret 0 (some .startFailed)
  else if p.exitStatus ≠ 0 then .ret 0 (some .findFailed)
  else .ret (counter.Write p.stdout.utf8ByteSize).bytesWritten none

/-! ## Specification-side notions: trees, pre-order listings, counted entries -/

/-- The part of an outcome the program can observe. -/
def Outcome.core {σ : Type} (r : Outcome σ) : σ × Option Error := (r.state, r.err)

/-- Whether the metadata is a `Stat_t` on device `d`. -/
def Sys.onDev (d : Nat) : Sys → Bool
  | .stat s => decide (s.Dev = d)
  | _ => false

/-- The `Stat_t` behind a `Sys()` value, if any. -/
def Sys.stats : Sys → List Stat_t
  | .stat s => [s]
  | _ => []

mutual
/-- A tree without stat errors on the single device `d`: every `Lstat` and every
directory read succeeds and every entry carries a `Stat_t` with `Dev = d`. -/
def Node.clean (d : Nat) : Node → Bool
  | .file _ sys => sys.onDev d
  | .dir _ sys names => sys.onDev d && names.clean d
  | .unreadable _ _ _ => false
/-- The listing part of `Node.clean`. -/
def Listing.clean (d : Nat) : Listing → Bool
  | .nil => true
  | .gone _ _ _ => false
  | .entry n rest => n.clean d && rest.clean d
end

mutual
/-- The metadata of the entries of a tree in walk order (pre-order). -/
def Node.entries : Node → List Stat_t
  | .file _ sys => sys.stats
  | .dir _ sys names => sys.stats ++ names.entries
  | .unreadable _ sys _ => sys.stats
/-- The listing part of `Node.entries`. -/
def Listing.entries : Listing → List Stat_t
  | .nil => []
  | .gone _ _ rest => rest.entries
  | .entry n rest => n.entries ++ rest.entries
end

/-- The callback applied with a nil error to each metadata of a list, in order. -/
def visitAll (d : Nat) (c : Closure) (l : List Stat_t) : Closure :=
  l.foldl (fun c s => (walkFn d c (.ok (.stat s))).1) c

/-- The totals the callback accumulates over a walk that visits `l` in order,
starting from zero totals and an empty seen-inode set. -/
def usageOf (d : Nat) (l : List Stat_t) : UsageInfo := (visitAll d ⟨⟨0, 0⟩, []⟩ l).usage

/-- The sum of `uint64(blocks) * 512` over a list of entries, before reduction modulo `2^64`. -/
def bytesOf (l : List Stat_t) : Nat := (l.map (fun e => toUint64 e.Blocks * 512)).sum

/-- An entry is counted unless its link count exceeds 1 and an entry visited
before it has a link count above 1 and the same inode number. -/
def isCounted (before : List Stat_t) (e : Stat_t) : Bool :=
  decide (e.Nlink ≤ 1) || !(before.any (fun p => decide (1 < p.Nlink) && decide (p.Ino = e.Ino)))

/-- The counted entries of `l`, given the entries `before` visited earlier. -/
def countedFrom (before : List Stat_t) : List Stat_t → List Stat_t
  | [] => []
  | e :: es =>
      if isCounted before e then e :: countedFrom (before ++ [e]) es
      else countedFrom (before ++ [e]) es

/-- The counted entries of a walk that visits `l` in order. -/
def countedEntries (l : List Stat_t) : List Stat_t := countedFrom [] l

mutual
/-- The tree with the entries that vanished (`Lstat` fails with "not exists") left out. -/
def Node.omitVanished : Node → Node
  | .file nm s => .file nm s
  | .dir nm s names => .dir nm s names.omitVanished
  | .unreadable nm s e => .unreadable nm s e
/-- The listing part of `Node.omitVanished`. -/
def Listing.omitVanished : Listing → Listing
  | .nil => .nil
  | .gone nm e rest =>
      if os_IsNotExist e then rest.omitVanished else .gone nm e rest.omitVanished
  | .entry n rest => .entry n.omitVanished rest.omitVanished
end

mutual
/-- A tree whose only failures are vanished entries: every failing `Lstat` is
"not exists", every directory can be read, every entry carries a `Stat_t`. -/
def Node.onlyVanished : Node → Bool
  | .file _ sys => decide (sys.stats ≠ [])
  | .dir _ sys names => decide (sys.stats ≠ []) && names.onlyVanished
  | .unreadable _ _ _ => false
/-- The listing part of `Node.onlyVanished`. -/
def Listing.onlyVanished : Listing → Bool
  | .nil => true
  | .gone _ e rest => os_IsNotExist e && rest.onlyVanished
  | .entry n rest => n.onlyVanished && rest.onlyVanished
end

mutual
/-- The entry reached from a directory by a non-empty path of positions in the
successive listings (the root itself is not an entry under the root). -/
def Node.entryAt : Node → List Nat → Option Node
  | .dir _ _ names, i :: p => names.entryAt i p
  | _, _ => none
/-- The listing part of `Node.entryAt`. -/
def Listing.entryAt : Listing → Nat → List Nat → Option Node
  | .nil, _, _ => none
  | .gone _ _ _, 0, _ => none
  | .gone _ _ rest, i + 1, p => rest.entryAt i p
  | .entry n _, 0, [] => some n
  | .entry n _, 0, j :: q => n.entryAt (j :: q)
  | .entry _ rest, i + 1, p => rest.entryAt i p
end

mutual
/-- The tree with the entry at the given path, and everything below it, removed. -/
def Node.prune : Node → List Nat → Node
  | .dir nm sys names, i :: p => .dir nm sys (names.prune i p)
  | n, _ => n
/-- The listing part of `Node.prune`. -/
def Listing.prune : Listing → Nat → List Nat → Listing
  | .nil, _, _ => .nil
  | .gone nm e rest, 0, _ => .gone nm e rest
  | .gone nm e rest, i + 1, p => .gone nm e (rest.prune i p)
  | .entry _ rest, 0, [] => rest
  | .entry n rest, 0, j :: q => .entry (n.prune (j :: q)) rest
  | .entry n rest, i + 1, p => .entry n (rest.prune i p)
end

/-- A directory on a device other than `d` whose read does not fail with an
error other than "not exists". -/
def Node.foreignDir (d : Nat) : Node → Bool
  | .dir _ (.stat s) _ => decide (s.Dev ≠ d)
  | .unreadable _ (.stat s) e => decide (s.Dev ≠ d) && os_IsNotExist e
  | _ => false

/-- The outcome `r` on a tree against the outcome `r2` on the tree with one
subtree removed: same state and error, at most one more callback invocation and
at most two more file-system operations. -/
def Outcome.near {σ : Type} (r r2 : Outcome σ) : Prop :=
  r.core = r2.core ∧ r2.calls ≤ r.calls ∧ r.calls ≤ r2.calls + 1 ∧
    r2.fsOps ≤ r.fsOps ∧ r.fsOps ≤ r2.fsOps + 2

/-- The file system `fs` with the walked tree replaced. -/
def FS.withTree (fs : FS) (n : Node) : FS := { fs with lstat := .ok n }

/-! ## Concrete file systems and subprocesses used as examples -/

/-- Metadata `Stat_t{Dev, Ino, Nlink, Blocks}` as a `Sys()` value. -/
def st (dev ino nlink : Nat) (blocks : Int) : Sys := .stat ⟨dev, ino, nlink, blocks⟩

/-- The tree `/root` with the file `/root/a` (8 blocks, link count 1) and the empty
directory `/root/b`, all on device `d`. -/
def endToEndTree (d rootIno aIno bIno rootNlink bNlink : Nat) (rootBlocks bBlocks : Int) :
    Node :=
  .dir "/root" (st d rootIno rootNlink rootBlocks)
    (.entry (.file "a" (st d aIno 1 8))
      (.entry (.dir "b" (st d bIno bNlink bBlocks) .nil) .nil))

/-- The file system in which `os.Stat` and the walk both see `endToEndTree`. -/
def endToEnd (d rootIno aIno bIno rootNlink bNlink : Nat) (rootBlocks bBlocks : Int) : FS :=
  { stat := .ok (st d rootIno rootNlink rootBlocks),
    lstat := .ok (endToEndTree d rootIno aIno bIno rootNlink bNlink rootBlocks bBlocks) }

/-- The tree `/root` with `/root/a` and `/root/hardlink_to_a` sharing inode `ino`
(link count 2, 8 blocks), on the device of the root metadata `rs`. -/
def hardlinkTree (rs : Stat_t) (ino : Nat) : Node :=
  .dir "/root" (.stat rs)
    (.entry (.file "a" (st rs.Dev ino 2 8))
      (.entry (.file "hardlink_to_a" (st rs.Dev ino 2 8)) .nil))

/-- The file system in which `os.Stat` and the walk both see `hardlinkTree`. -/
def hardlinkPair (rs : Stat_t) (ino : Nat) : FS :=
  { stat := .ok (.stat rs), lstat := .ok (hardlinkTree rs ino) }

/-- The directory `/root` (device 1) whose first name cannot be inspected
(permission denied) and whose second name is a regular file of 8 blocks. -/
def deniedEntry : FS :=
  { stat := .ok (st 1 10 2 8),
    lstat := .ok (.dir "/root" (st 1 10 2 8)
      (.gone "a" .permission (.entry (.file "b" (st 1 12 1 8)) .nil))) }

/-- The directory `/root` (device 1) holding the directory `d`, on the same device,
which cannot be read (I/O error), followed by a regular file of 8 blocks. -/
def deniedDir : FS :=
  { stat := .ok (st 1 10 3 8),
    lstat := .ok (.dir "/root" (st 1 10 3 8)
      (.entry (.unreadable "d" (st 1 11 2 8) .ioFailure)
        (.entry (.file "e" (st 1 12 1 8)) .nil))) }

/-- The directory `/root` (device 1) holding the directory `d` on the same
device (link count 1, 8 blocks), which vanished between its `Lstat` and its read,
followed by the file `e` (link count 1, 8 blocks). -/
def vanishedDir : FS :=
  { stat := .ok (st 1 10 2 8),
    lstat := .ok (.dir "/root" (st 1 10 2 8)
      (.entry (.unreadable "d" (st 1 11 1 8) .notExist)
        (.entry (.file "e" (st 1 12 1 8)) .nil))) }

/-- The directory `/root` (device 1) holding the file `a` on device 2 (a file
bind mount) followed by the file `b` on device 1 (8 blocks, link count 1). -/
def foreignFileTree : Node :=
  .dir "/root" (st 1 10 2 8)
    (.entry (.file "a" (st 2 11 1 8)) (.entry (.file "b" (st 1 12 1 8)) .nil))

/-- The file system in which `os.Stat` and the walk both see `foreignFileTree`. -/
def foreignFile : FS :=
  { stat := .ok (st 1 10 2 8), lstat := .ok foreignFileTree }

/-- The directory `/root` (device 1) holding the directory `mnt` on device 2,
which cannot be read (permission denied), followed by the file `z` on device 1. -/
def foreignUnreadableTree : Node :=
  .dir "/root" (st 1 10 3 8)
    (.entry (.unreadable "mnt" (st 2 2 2 8) .permission)
      (.entry (.file "z" (st 1 12 1 8)) .nil))

/-- The file system in which `os.Stat` and the walk both see `foreignUnreadableTree`. -/
def foreignUnreadable : FS :=
  { stat := .ok (st 1 10 3 8), lstat := .ok foreignUnreadableTree }

/-- A directory `mnt` on device 2 with two files below it. -/
def mntDir : Node :=
  .dir "mnt" (st 2 2 2 8)
    (.entry (.file "x" (st 2 3 1 8)) (.entry (.file "y" (st 2 4 1 8)) .nil))

/-- The directory `/root` (device 1) holding `mntDir` followed by the file `z` on device 1. -/
def foreignMountTree : Node :=
  .dir "/root" (st 1 10 3 8) (.entry mntDir (.entry (.file "z" (st 1 12 1 8)) .nil))

/-- The file system in which `os.Stat` and the walk both see `foreignMountTree`. -/
def foreignMount : FS :=
  { stat := .ok (st 1 10 3 8), lstat := .ok foreignMountTree }

/-- The directory `/root` whose listed name `tmp` vanished before `Lstat`,
followed by the file `a`. -/
def vanishingTree : Node :=
  .dir "/root" (st 1 10 2 8)
    (.gone "tmp" .notExist (.entry (.file "a" (st 1 11 1 8)) .nil))

/-- The file system in which `os.Stat` and the walk both see `vanishingTree`. -/
def vanishing : FS :=
  { stat := .ok (st 1 10 2 8), lstat := .ok vanishingTree }

/-- A path that cannot be inspected: `os.Stat` fails with "not exists". -/
def noRoot : FS :=
  { stat := .error .notExist, lstat := .error .notExist }

/-- A subprocess that prints a result and a warning, and exits with status 0. -/
def warnProc : Proc :=
  { stdoutPipeErr := false, stderrPipeErr := false, startErr := false,
    stdout := "4\t/d\n", stdoutReadErr := false, stderr := "warning", exitStatus := 0 }

/-- A subprocess that exits with status 1. -/
def failedProc : Proc :=
  { stdoutPipeErr := false, stderrPipeErr := false, startErr := false,
    stdout := "", stdoutReadErr := false, stderr := "du: cannot access", exitStatus := 1 }


/-! ## Basic facts about the walk -/

@[simp] theorem core_bump {σ : Type} (r : Outcome σ) (a b : Nat) :
    (r.bump a b).core = r.core := rfl

@[simp] theorem state_bump {σ : Type} (r : Outcome σ) (a b : Nat) :
    (r.bump a b).state = r.state := rfl

@[simp] theorem err_bump {σ : Type} (r : Outcome σ) (a b : Nat) :
    (r.bump a b).err = r.err := rfl

@[simp] theorem calls_bump {σ : Type} (r : Outcome σ) (a b : Nat) :
    (r.bump a b).calls = r.calls + b := rfl

@[simp] theorem fsOps_bump {σ : Type} (r : Outcome σ) (a b : Nat) :
    (r.bump a b).fsOps = r.fsOps + a := rfl

theorem core_eq_iff {σ : Type} (r r2 : Outcome σ) :
    r.core = r2.core ↔ r.state = r2.state ∧ r.err = r2.err := by
  simp [Outcome.core]

theorem isDir_omitVanished (n : Node) : n.omitVanished.isDir = n.isDir := by
  cases n <;> simp [Node.omitVanished, Node.isDir]

/-- Once the root checks pass, `DiskUsageNew` returns a nil error and the usage the
walk left behind, whatever error the walk itself returned. -/
theorem DiskUsageNew_of_root (fs : FS) (dir : String) (rs : Stat_t) (hdir : dir ≠ "")
    (hstat : fs.stat = .ok (.stat rs)) :
    DiskUsageNew fs dir =
      ⟨(Walk fs.lstat (walkFn rs.Dev) ⟨⟨0, 0⟩, []⟩).state.usage, none,
        (Walk fs.lstat (walkFn rs.Dev) ⟨⟨0, 0⟩, []⟩).fsOps + 1,
        (Walk fs.lstat (walkFn rs.Dev) ⟨⟨0, 0⟩, []⟩).calls⟩ := by
  simp [DiskUsageNew, hdir, hstat]

theorem Walk_ok {σ : Type} (fn : σ → Visit → σ × Option Error) (n : Node) (s : σ) :
    Walk (.ok n) fn s =
      ⟨(walk fn n s).state, skipDirToNil (walk fn n s).err, (walk fn n s).fsOps + 1,
        (walk fn n s).calls⟩ := rfl

/-! ## Vanished entries -/

mutual
theorem walk_omitVanished (d : Nat) : ∀ (n : Node) (c : Closure),
    (walk (walkFn d) n.omitVanished c).core = (walk (walkFn d) n c).core
  | .file nm s, c => by simp [Node.omitVanished]
  | .unreadable nm s e, c => by simp [Node.omitVanished]
  | .dir nm s names, c => by
      simp only [Node.omitVanished, walk]
      cases h : (walkFn d c (.ok s)).2 with
      | some e => rfl
      | none => simp [walkNames_omitVanished d names]
theorem walkNames_omitVanished (d : Nat) : ∀ (l : Listing) (c : Closure),
    (walkNames (walkFn d) l.omitVanished c).core = (walkNames (walkFn d) l c).core
  | .nil, c => by simp [Listing.omitVanished]
  | .gone nm e rest, c => by
      cases e <;>
        simp [Listing.omitVanished, os_IsNotExist, walkNames, walkFn,
          walkNames_omitVanished d rest]
  | .entry n rest, c => by
      have h1 := walk_omitVanished d n c
      rw [core_eq_iff] at h1
      simp only [Listing.omitVanished, walkNames, isDir_omitVanished, h1.1, h1.2]
      split
      · rw [core_eq_iff]; exact h1
      · simp [walkNames_omitVanished d rest]
end

/-- The callback never fails on an entry that carries a `Stat_t`: it answers nil or `SkipDir`. -/
theorem walkFn_ok_stat (d : Nat) (c : Closure) (s : Stat_t) :
    (walkFn d c (.ok (.stat s))).2 = none ∨ (walkFn d c (.ok (.stat s))).2 = some .SkipDir := by
  simp only [walkFn]
  split_ifs <;> simp

theorem stats_ne_nil {sys : Sys} (h : sys.stats ≠ []) : ∃ s, sys = .stat s := by
  cases sys <;> simp [Sys.stats] at h ⊢

mutual
theorem walk_onlyVanished (d : Nat) : ∀ (n : Node) (c : Closure), n.onlyVanished = true →
    (walk (walkFn d) n c).err = none ∨ (walk (walkFn d) n c).err = some .SkipDir
  | .file nm sys, c, h => by
      simp only [Node.onlyVanished, decide_eq_true_eq] at h
      obtain ⟨s, rfl⟩ := stats_ne_nil h
      simpa [walk] using walkFn_ok_stat d c s
  | .unreadable nm sys e, c, h => by simp [Node.onlyVanished] at h
  | .dir nm sys names, c, h => by
      simp only [Node.onlyVanished, Bool.and_eq_true, decide_eq_true_eq] at h
      obtain ⟨s, rfl⟩ := stats_ne_nil h.1
      simp only [walk]
      cases hc : (walkFn d c (.ok (.stat s))).2 with
      | some e =>
          rcases walkFn_ok_stat d c s with h0 | h0
          · rw [hc] at h0; cases h0
          · rw [hc] at h0; simp [h0]
      | none => simpa using walkNames_onlyVanished d names _ h.2
theorem walkNames_onlyVanished (d : Nat) : ∀ (l : Listing) (c : Closure), l.onlyVanished = true →
    (walkNames (walkFn d) l c).err = none ∨ (walkNames (walkFn d) l c).err = some .SkipDir
  | .nil, c, _ => by simp [walkNames]
  | .gone nm e rest, c, h => by
      simp only [Listing.onlyVanished, Bool.and_eq_true] at h
      simp only [walkNames, walkFn, h.1, if_true]
      simpa using walkNames_onlyVanished d rest c h.2
  | .entry n rest, c, h => by
      simp only [Listing.onlyVanished, Bool.and_eq_true] at h
      simp only [walkNames]
      split
      · simpa using walk_onlyVanished d n c h.1
      · simpa using walkNames_onlyVanished d rest _ h.2
end

/-! ## Trees without errors on a single device -/

theorem onDev_eq {d : Nat} {sys : Sys} (h : sys.onDev d = true) :
    ∃ s, sys = .stat s ∧ s.Dev = d := by
  cases sys <;> simp [Sys.onDev] at h ⊢
  exact h

theorem walkFn_onDev_err (d : Nat) (c : Closure) (s : Stat_t) (h : s.Dev = d) :
    (walkFn d c (.ok (.stat s))).2 = none := by
  simp only [walkFn, h]
  split_ifs <;> simp_all

theorem visitAll_cons (d : Nat) (c : Closure) (e : Stat_t) (l : List Stat_t) :
    visitAll d c (e :: l) = visitAll d (walkFn d c (.ok (.stat e))).1 l := rfl

theorem visitAll_append (d : Nat) (c : Closure) (l l2 : List Stat_t) :
    visitAll d c (l ++ l2) = visitAll d (visitAll d c l) l2 := by
  simp [visitAll, List.foldl_append]

mutual
theorem walk_clean (d : Nat) : ∀ (n : Node) (c : Closure), n.clean d = true →
    (walk (walkFn d) n c).core = (visitAll d c n.entries, none)
  | .file nm sys, c, h => by
      simp only [Node.clean] at h
      obtain ⟨s, rfl, hs⟩ := onDev_eq h
      simp [walk, Outcome.core, Node.entries, Sys.stats, visitAll, walkFn_onDev_err d c s hs]
  | .unreadable nm sys e, c, h => by simp [Node.clean] at h
  | .dir nm sys names, c, h => by
      simp only [Node.clean, Bool.and_eq_true] at h
      obtain ⟨s, rfl, hs⟩ := onDev_eq h.1
      simp only [walk, walkFn_onDev_err d c s hs, core_bump, Node.entries, Sys.stats,
        List.singleton_append, visitAll_cons]
      exact walkNames_clean d names _ h.2
theorem walkNames_clean (d : Nat) : ∀ (l : Listing) (c : Closure), l.clean d = true →
    (walkNames (walkFn d) l c).core = (visitAll d c l.entries, none)
  | .nil, c, _ => by simp [walkNames, Outcome.core, Listing.entries, visitAll]
  | .gone nm e rest, c, h => by simp [Listing.clean] at h
  | .entry n rest, c, h => by
      simp only [Listing.clean, Bool.and_eq_true] at h
      have h1 := walk_clean d n c h.1
      simp only [Outcome.core, Prod.mk.injEq] at h1
      simp only [walkNames, h1.1, h1.2, Listing.entries, visitAll_append]
      simpa using walkNames_clean d rest _ h.2
end

mutual
theorem entries_dev (d : Nat) : ∀ (n : Node), n.clean d = true → ∀ e ∈ n.entries, e.Dev = d
  | .file nm sys, h => by
      simp only [Node.clean] at h
      obtain ⟨s, rfl, hs⟩ := onDev_eq h
      simp [Node.entries, Sys.stats, hs]
  | .unreadable nm sys e, h => by simp [Node.clean] at h
  | .dir nm sys names, h => by
      simp only [Node.clean, Bool.and_eq_true] at h
      obtain ⟨s, rfl, hs⟩ := onDev_eq h.1
      intro e he
      simp only [Node.entries, Sys.stats, List.singleton_append, List.mem_cons] at he
      rcases he with rfl | he
      · exact hs
      · exact listing_entries_dev d names h.2 e he
theorem listing_entries_dev (d : Nat) : ∀ (l : Listing), l.clean d = true →
    ∀ e ∈ l.entries, e.Dev = d
  | .nil, _ => by simp [Listing.entries]
  | .gone nm e rest, h => by simp [Listing.clean] at h
  | .entry n rest, h => by
      simp only [Listing.clean, Bool.and_eq_true] at h
      intro e he
      simp only [Listing.entries, List.mem_append] at he
      rcases he with he | he
      · exact entries_dev d n h.1 e he
      · exact listing_entries_dev d rest h.2 e he
end

/-- On a tree without errors on the root's device, `DiskUsageNew` returns the
totals of the callback applied to the entries in walk order. -/
theorem DiskUsageNew_clean (fs : FS) (dir : String) (rs : Stat_t) (root : Node)
    (hdir : dir ≠ "") (hstat : fs.stat = .ok (.stat rs)) (hl : fs.lstat = .ok root)
    (hclean : root.clean rs.Dev = true) :
    (DiskUsageNew fs dir).err = none ∧
      (DiskUsageNew fs dir).usage = usageOf rs.Dev root.entries := by
  rw [DiskUsageNew_of_root fs dir rs hdir hstat]
  have h := walk_clean rs.Dev root ⟨⟨0, 0⟩, []⟩ hclean
  simp only [Outcome.core, Prod.mk.injEq] at h
  simp [hl, Walk_ok, h.1, usageOf]

/-! ### The callback on one entry of the root's device -/

theorem step_seen (d : Nat) (c : Closure) (e : Stat_t) (hd : e.Dev = d) (hn : 1 < e.Nlink)
    (hs : e.Ino ∈ c.dedupedInodes) : (walkFn d c (.ok (.stat e))).1 = c := by
  simp [walkFn, hd, hn, hs]

theorem step_new (d : Nat) (c : Closure) (e : Stat_t) (hd : e.Dev = d) (hn : 1 < e.Nlink)
    (hs : e.Ino ∉ c.dedupedInodes) :
    (walkFn d c (.ok (.stat e))).1 = ⟨count c.usage e, e.Ino :: c.dedupedInodes⟩ := by
  simp [walkFn, hd, hn, hs]

theorem step_single (d : Nat) (c : Closure) (e : Stat_t) (hd : e.Dev = d) (hn : ¬ 1 < e.Nlink) :
    (walkFn d c (.ok (.stat e))).1 = ⟨count c.usage e, c.dedupedInodes⟩ := by
  simp [walkFn, hd, hn]

theorem count_comm (u : UsageInfo) (a b : Stat_t) :
    count (count u a) b = count (count u b) a := by
  simp only [count, u64, UsageInfo.mk.injEq]
  refine ⟨?_, trivial⟩
  generalize toUint64 a.Blocks * 512 = x
  generalize toUint64 b.Blocks * 512 = y
  omega

theorem count_blocks (u : UsageInfo) (a b : Stat_t) (h : a.Blocks = b.Blocks) :
    count u a = count u b := by
  simp [count, h]

/-! ### Counted entries -/

theorem count_lt (u : UsageInfo) (e : Stat_t) :
    (count u e).Bytes < u64 ∧ (count u e).Inodes < u64 := by
  simp only [count]
  exact ⟨Nat.mod_lt _ (by simp [u64]), Nat.mod_lt _ (by simp [u64])⟩

theorem isCounted_single (before : List Stat_t) (e : Stat_t) (h : ¬ 1 < e.Nlink) :
    isCounted before e = true := by
  have h2 : e.Nlink ≤ 1 := by omega
  simp [isCounted, h2]

theorem isCounted_multi (before : List Stat_t) (e : Stat_t) (h : 1 < e.Nlink) :
    isCounted before e = true ↔ ¬ ∃ p ∈ before, 1 < p.Nlink ∧ p.Ino = e.Ino := by
  have h2 : ¬ e.Nlink ≤ 1 := by omega
  simp [isCounted, h2]

/-- The totals after visiting `l`, from a state whose seen-inode set holds the
inode numbers of the earlier entries with link count above 1. -/
theorem visitAll_counted (d : Nat) : ∀ (l before : List Stat_t) (c : Closure),
    (∀ j, j ∈ c.dedupedInodes ↔ ∃ p ∈ before, 1 < p.Nlink ∧ p.Ino = j) →
    (∀ e ∈ l, e.Dev = d) →
    (visitAll d c l).usage.Bytes % u64
        = (c.usage.Bytes + bytesOf (countedFrom before l)) % u64 ∧
      (visitAll d c l).usage.Inodes % u64
        = (c.usage.Inodes + (countedFrom before l).length) % u64
  | [], before, c, _, _ => by simp [visitAll, countedFrom, bytesOf]
  | e :: l, before, c, hs, hd => by
      have hde : e.Dev = d := hd e (List.mem_cons_self _ _)
      have hd2 : ∀ a ∈ l, a.Dev = d := fun a ha => hd a (List.mem_cons_of_mem _ ha)
      rw [visitAll_cons]
      by_cases h1 : 1 < e.Nlink
      · by_cases h2 : e.Ino ∈ c.dedupedInodes
        · have hc : isCounted before e = false := by
            rw [Bool.eq_false_iff, ne_eq, isCounted_multi before e h1, not_not]
            exact (hs e.Ino).1 h2
          rw [step_seen d c e hde h1 h2]
          simp only [countedFrom, hc, Bool.false_eq_true, if_false]
          refine visitAll_counted d l (before ++ [e]) c ?_ hd2
          intro j
          rw [hs j]
          constructor
          · rintro ⟨p, hp, hp2⟩
            exact ⟨p, List.mem_append_left _ hp, hp2⟩
          · rintro ⟨p, hp, hp2⟩
            rcases List.mem_append.1 hp with hp | hp
            · exact ⟨p, hp, hp2⟩
            · rw [List.mem_singleton] at hp
              subst hp
              rw [← hp2.2]
              exact (hs _).1 h2
        · have hc : isCounted before e = true := by
            rw [isCounted_multi before e h1]
            exact fun h => h2 ((hs e.Ino).2 h)
          rw [step_new d c e hde h1 h2]
          simp only [countedFrom, hc, if_true]
          have ih := visitAll_counted d l (before ++ [e])
            ⟨count c.usage e, e.Ino :: c.dedupedInodes⟩ (by
              intro j
              simp only [List.mem_cons, hs j, List.mem_append, List.not_mem_nil, or_false]
              constructor
              · rintro (rfl | ⟨p, hp, hp2⟩)
                · exact ⟨e, Or.inr rfl, h1, rfl⟩
                · exact ⟨p, Or.inl hp, hp2⟩
              · rintro ⟨p, hp | rfl, hp2⟩
                · exact Or.inr ⟨p, hp, hp2⟩
                · exact Or.inl hp2.2.symm) hd2
          simp only [count, bytesOf, List.map_cons, List.sum_cons, List.length_cons, u64] at ih ⊢
          constructor
          · rw [ih.1]; omega
          · rw [ih.2]; omega
      · have hc : isCounted before e = true := isCounted_single before e h1
        rw [step_single d c e hde h1]
        simp only [countedFrom, hc, if_true]
        have ih := visitAll_counted d l (before ++ [e]) ⟨count c.usage e, c.dedupedInodes⟩ (by
            intro j
            simp only [List.mem_cons, hs j, List.mem_append, List.not_mem_nil, or_false]
            constructor
            · rintro ⟨p, hp, hp2⟩
              exact ⟨p, Or.inl hp, hp2⟩
            · rintro ⟨p, hp | rfl, hp2⟩
              · exact ⟨p, hp, hp2⟩
              · exact absurd hp2.1 h1) hd2
        simp only [count, bytesOf, List.map_cons, List.sum_cons, List.length_cons, u64] at ih ⊢
        constructor
        · rw [ih.1]; omega
        · rw [ih.2]; omega

theorem visitAll_lt (d : Nat) : ∀ (l : List Stat_t) (c : Closure),
    c.usage.Bytes < u64 → c.usage.Inodes < u64 →
    (visitAll d c l).usage.Bytes < u64 ∧ (visitAll d c l).usage.Inodes < u64
  | [], c, h1, h2 => ⟨h1, h2⟩
  | e :: l, c, h1, h2 => by
      rw [visitAll_cons]
      have h : (walkFn d c (.ok (.stat e))).1.usage = c.usage ∨
          (walkFn d c (.ok (.stat e))).1.usage = count c.usage e := by
        simp only [walkFn]
        split_ifs <;> simp
      rcases h with h | h
      · exact visitAll_lt d l _ (by rw [h]; exact h1) (by rw [h]; exact h2)
      · exact visitAll_lt d l _ (by rw [h]; exact (count_lt _ _).1)
          (by rw [h]; exact (count_lt _ _).2)

/-- The totals of a walk over entries of the root's device: the 64-bit sum of
the allocations of the counted entries and their number. -/
theorem usageOf_counted (d : Nat) (l : List Stat_t) (hd : ∀ e ∈ l, e.Dev = d) :
    usageOf d l = ⟨bytesOf (countedEntries l) % u64, (countedEntries l).length % u64⟩ := by
  have h := visitAll_counted d l [] ⟨⟨0, 0⟩, []⟩ (by simp) hd
  have h2 := visitAll_lt d l ⟨⟨0, 0⟩, []⟩ (by simp [u64]) (by simp [u64])
  simp only [Nat.zero_add] at h
  rw [Nat.mod_eq_of_lt h2.1] at h
  rw [Nat.mod_eq_of_lt h2.2] at h
  simp only [usageOf, countedEntries]
  cases hu : (visitAll d ⟨⟨0, 0⟩, []⟩ l).usage with
  | mk b n =>
      rw [hu] at h
      simp only at h
      rw [h.1, h.2]

/-! ### Hardlinks -/

/-- Leaving out the entries of an inode that is already in the seen-inode set, and
whose entries all have link count above 1, changes neither the totals still to be
added nor the rest of the set. -/
theorem visitAll_filter_seen (d i : Nat) (x : Stat_t) : ∀ (l : List Stat_t) (c1 c2 : Closure),
    c1.usage = count c2.usage x →
    (∀ j, j ∈ c1.dedupedInodes ↔ j = i ∨ j ∈ c2.dedupedInodes) →
    (∀ e ∈ l, e.Dev = d) → (∀ e ∈ l, e.Ino = i → 1 < e.Nlink) →
    (visitAll d c1 l).usage = count (visitAll d c2 (l.filter (fun e => e.Ino ≠ i))).usage x
  | [], c1, c2, hu, _, _, _ => by simpa [visitAll] using hu
  | e :: l, c1, c2, hu, hs, hd, hn => by
      have hde : e.Dev = d := hd e (List.mem_cons_self _ _)
      have hd2 : ∀ a ∈ l, a.Dev = d := fun a ha => hd a (List.mem_cons_of_mem _ ha)
      have hn2 : ∀ a ∈ l, a.Ino = i → 1 < a.Nlink :=
        fun a ha => hn a (List.mem_cons_of_mem _ ha)
      rw [visitAll_cons]
      by_cases hi : e.Ino = i
      · have h1 : 1 < e.Nlink := hn e (List.mem_cons_self _ _) hi
        have h2 : e.Ino ∈ c1.dedupedInodes := (hs e.Ino).2 (Or.inl hi)
        rw [step_seen d c1 e hde h1 h2]
        simp only [List.filter_cons, hi, ne_eq, not_true_eq_false, decide_False]
        exact visitAll_filter_seen d i x l c1 c2 hu hs hd2 hn2
      · simp only [List.filter_cons, hi, ne_eq, not_false_eq_true, decide_True, if_true,
          visitAll_cons]
        have hmem : e.Ino ∈ c1.dedupedInodes ↔ e.Ino ∈ c2.dedupedInodes := by
          rw [hs e.Ino]; simp [hi]
        by_cases h1 : 1 < e.Nlink
        · by_cases h2 : e.Ino ∈ c2.dedupedInodes
          · rw [step_seen d c1 e hde h1 (hmem.2 h2), step_seen d c2 e hde h1 h2]
            exact visitAll_filter_seen d i x l c1 c2 hu hs hd2 hn2
          · rw [step_new d c1 e hde h1 (fun h => h2 (hmem.1 h)), step_new d c2 e hde h1 h2]
            refine visitAll_filter_seen d i x l _ _ ?_ ?_ hd2 hn2
            · simp only [hu]; exact count_comm _ _ _
            · intro j
              simp only [List.mem_cons, hs j]
              tauto
        · rw [step_single d c1 e hde h1, step_single d c2 e hde h1]
          refine visitAll_filter_seen d i x l _ _ ?_ ?_ hd2 hn2
          · simp only [hu]; exact count_comm _ _ _
          · exact hs

/-- The entries of an inode not yet in the seen-inode set, all with link count
above 1 and the same block count, add one entry's allocation and one inode to
what the walk adds without them. -/
theorem visitAll_filter_new (d i : Nat) (x : Stat_t) : ∀ (l : List Stat_t) (c : Closure),
    i ∉ c.dedupedInodes → (∀ e ∈ l, e.Dev = d) →
    (∀ e ∈ l, e.Ino = i → 1 < e.Nlink ∧ e.Blocks = x.Blocks) → (∃ e ∈ l, e.Ino = i) →
    (visitAll d c l).usage = count (visitAll d c (l.filter (fun e => e.Ino ≠ i))).usage x
  | [], c, _, _, _, hex => by simp at hex
  | e :: l, c, hs, hd, hn, hex => by
      have hde : e.Dev = d := hd e (List.mem_cons_self _ _)
      have hd2 : ∀ a ∈ l, a.Dev = d := fun a ha => hd a (List.mem_cons_of_mem _ ha)
      have hn2 : ∀ a ∈ l, a.Ino = i → 1 < a.Nlink ∧ a.Blocks = x.Blocks :=
        fun a ha => hn a (List.mem_cons_of_mem _ ha)
      rw [visitAll_cons]
      by_cases hi : e.Ino = i
      · obtain ⟨h1, hb⟩ := hn e (List.mem_cons_self _ _) hi
        rw [step_new d c e hde h1 (by rw [hi]; exact hs)]
        simp only [List.filter_cons, hi, ne_eq, not_true_eq_false, decide_False]
        refine visitAll_filter_seen d i x l _ c (count_blocks _ _ _ hb) ?_ hd2
          (fun a ha h => (hn2 a ha h).1)
        intro j
        simp [hi]
      · simp only [List.filter_cons, hi, ne_eq, not_false_eq_true, decide_True, if_true,
          visitAll_cons]
        have hex2 : ∃ a ∈ l, a.Ino = i := by
          obtain ⟨a, ha, hai⟩ := hex
          rcases List.mem_cons.1 ha with rfl | ha
          · exact absurd hai hi
          · exact ⟨a, ha, hai⟩
        refine visitAll_filter_new d i x l _ ?_ hd2 hn2 hex2
        by_cases h1 : 1 < e.Nlink
        · by_cases h2 : e.Ino ∈ c.dedupedInodes
          · rw [step_seen d c e hde h1 h2]; exact hs
          · rw [step_new d c e hde h1 h2]
            simp only [List.mem_cons, not_or]
            exact ⟨fun h => hi h.symm, hs⟩
        · rw [step_single d c e hde h1]; exact hs

/-! ## Device boundary -/

theorem near_refl {σ : Type} (r : Outcome σ) : r.near r := by
  simp [Outcome.near]

theorem near_bump {σ : Type} {r r2 : Outcome σ} (h : r.near r2) (a b : Nat) :
    (r.bump a b).near (r2.bump a b) := by
  obtain ⟨h1, h2, h3, h4, h5⟩ := h
  refine ⟨by simpa using h1, ?_, ?_, ?_, ?_⟩ <;> simp <;> omega

theorem isDir_prune (n : Node) (p : List Nat) : (n.prune p).isDir = n.isDir := by
  cases n <;> cases p <;> simp [Node.prune, Node.isDir]

/-- A directory on another device is visited once, changes nothing and is skipped. -/
theorem walk_foreignDir (d : Nat) (t : Node) (c : Closure) (h : t.foreignDir d = true) :
    (walk (walkFn d) t c).state = c ∧ (walk (walkFn d) t c).calls = 1 ∧
      (walk (walkFn d) t c).fsOps = 1 ∧ t.isDir = true ∧
      ((walk (walkFn d) t c).err = none ∨ (walk (walkFn d) t c).err = some .SkipDir) := by
  cases t with
  | file nm sys => simp [Node.foreignDir] at h
  | dir nm sys names =>
      cases sys with
      | stat s =>
          simp only [Node.foreignDir, decide_eq_true_eq] at h
          simp [walk, walkFn, h, Node.isDir]
      | nil => simp [Node.foreignDir] at h
      | unknown => simp [Node.foreignDir] at h
  | unreadable nm sys e =>
      cases sys with
      | stat s =>
          simp only [Node.foreignDir, Bool.and_eq_true, decide_eq_true_eq] at h
          simp [walk, walkFn, h.2, Node.isDir]
      | nil => simp [Node.foreignDir] at h
      | unknown => simp [Node.foreignDir] at h

mutual
theorem walk_prune (d : Nat) : ∀ (n : Node) (p : List Nat) (t : Node) (c : Closure),
    n.entryAt p = some t → t.foreignDir d = true →
    (walk (walkFn d) n c).near (walk (walkFn d) (n.prune p) c)
  | .file nm sys, p, t, c, h, _ => by simp [Node.entryAt] at h
  | .unreadable nm sys e, p, t, c, h, _ => by simp [Node.entryAt] at h
  | .dir nm sys names, [], t, c, h, _ => by simp [Node.entryAt] at h
  | .dir nm sys names, i :: p, t, c, h, hf => by
      simp only [Node.entryAt] at h
      simp only [Node.prune, walk]
      cases hc : (walkFn d c (.ok sys)).2 with
      | some e => exact near_refl _
      | none => exact near_bump (walkNames_prune d names i p t _ h hf) 1 1
theorem walkNames_prune (d : Nat) : ∀ (l : Listing) (i : Nat) (p : List Nat) (t : Node)
    (c : Closure), l.entryAt i p = some t → t.foreignDir d = true →
    (walkNames (walkFn d) l c).near (walkNames (walkFn d) (l.prune i p) c)
  | .nil, i, p, t, c, h, _ => by simp [Listing.entryAt] at h
  | .gone nm e rest, 0, p, t, c, h, _ => by simp [Listing.entryAt] at h
  | .gone nm e rest, i + 1, p, t, c, h, hf => by
      simp only [Listing.entryAt] at h
      simp only [Listing.prune, walkNames]
      split
      · exact near_refl _
      · exact near_bump (walkNames_prune d rest i p t _ h hf) 1 1
  | .entry n rest, 0, [], t, c, h, hf => by
      simp only [Listing.entryAt, Option.some.injEq] at h
      subst h
      obtain ⟨h1, h2, h3, h4, h5⟩ := walk_foreignDir d n c hf
      simp only [Listing.prune, walkNames, h1, h2, h3, h4]
      rw [if_neg (by rcases h5 with h5 | h5 <;> simp [h5])]
      refine ⟨by simp, ?_, ?_, ?_, ?_⟩ <;> simp
  | .entry n rest, 0, j :: q, t, c, h, hf => by
      simp only [Listing.entryAt] at h
      obtain ⟨h1, h2, h3, h4, h5⟩ := walk_prune d n (j :: q) t c h hf
      rw [core_eq_iff] at h1
      simp only [Listing.prune, walkNames, isDir_prune, ← h1.1, ← h1.2]
      split
      · refine ⟨by rw [core_eq_iff]; exact ⟨h1.1, h1.2⟩, ?_, ?_, ?_, ?_⟩ <;> simp <;> omega
      · refine ⟨by simp, ?_, ?_, ?_, ?_⟩ <;> simp <;> omega
  | .entry n rest, i + 1, p, t, c, h, hf => by
      simp only [Listing.entryAt] at h
      simp only [Listing.prune, walkNames]
      split
      · exact near_refl _
      · exact near_bump (walkNames_prune d rest i p t _ h hf) _ _
end

theorem countedEntries_head (s : Stat_t) (l : List Stat_t) :
    (countedEntries (s :: l)).head? = some s := by
  simp [countedEntries, countedFrom, isCounted]

theorem clean_root_entries (d : Nat) (root : Node) (h : root.clean d = true) :
    ∃ s l, root.sys = .stat s ∧ root.entries = s :: l := by
  cases root with
  | file nm sys =>
      simp only [Node.clean] at h
      obtain ⟨s, rfl, _⟩ := onDev_eq h
      exact ⟨s, [], rfl, rfl⟩
  | dir nm sys names =>
      simp only [Node.clean, Bool.and_eq_true] at h
      obtain ⟨s, rfl, _⟩ := onDev_eq h.1
      exact ⟨s, names.entries, rfl, rfl⟩
  | unreadable nm sys e => simp [Node.clean] at h

/-! ## The claims -/

/-- C1 (the code at the failing inputs): in `/root` the `Lstat` of the first name
fails with "permission denied"; `filepath.Walk` returns the callback's error, and
`DiskUsageNew` returns a nil error with the totals of the root directory alone.
The same happens when the first name is a directory whose read fails. -/
theorem C1_walk_error_discarded :
    ((Walk deniedEntry.lstat (walkFn 1) ⟨⟨0, 0⟩, []⟩).err = some (.unableToCount .permission) ∧
      (DiskUsageNew deniedEntry "/root").err = none ∧
      (DiskUsageNew deniedEntry "/root").usage = ⟨4096, 1⟩) ∧
    ((Walk deniedDir.lstat (walkFn 1) ⟨⟨0, 0⟩, []⟩).err = some (.unableToCount .ioFailure) ∧
      (DiskUsageNew deniedDir "/root").err = none ∧
      (DiskUsageNew deniedDir "/root").usage = ⟨4096, 1⟩) := by
  decide

/-- C2: on a tree without stat errors whose entries are all on the root's device,
an inode number reached through `k >= 1` entries that all have link count above 1
and block count `b` adds `uint64(b) * 512` to `Bytes` once and 1 to `Inodes`
(64-bit additions) on top of the totals of the walk without those entries,
whatever `k` is; with `/root/a` and `/root/hardlink_to_a` sharing one inode (link
count 2, 8 blocks) the two paths add 4096 bytes and 1 inode to the root
directory's own allocation and inode. -/
theorem C2_hardlinks_counted_once (fs : FS) (dir : String) (rs : Stat_t) (root : Node)
    (i k : Nat) (b : Int) (hdir : dir ≠ "") (hstat : fs.stat = .ok (.stat rs))
    (hl : fs.lstat = .ok root) (hclean : root.clean rs.Dev = true)
    (hk : (root.entries.filter (fun e => e.Ino = i)).length = k) (hk1 : 1 ≤ k)
    (hall : ∀ e ∈ root.entries, e.Ino = i → 1 < e.Nlink ∧ e.Blocks = b) :
    ((DiskUsageNew fs dir).err = none ∧
      (DiskUsageNew fs dir).usage.Bytes =
        ((usageOf rs.Dev (root.entries.filter (fun e => e.Ino ≠ i))).Bytes
          + toUint64 b * 512 % u64) % u64 ∧
      (DiskUsageNew fs dir).usage.Inodes =
        ((usageOf rs.Dev (root.entries.filter (fun e => e.Ino ≠ i))).Inodes + 1) % u64) ∧
    (∀ (r : Stat_t) (ino : Nat), r.Ino ≠ ino →
      (DiskUsageNew (hardlinkPair r ino) "/root").usage =
        ⟨(toUint64 r.Blocks * 512 % u64 + 4096) % u64, 2⟩) := by
  constructor
  · obtain ⟨h1, h2⟩ := DiskUsageNew_clean fs dir rs root hdir hstat hl hclean
    have hex : ∃ e ∈ root.entries, e.Ino = i := by
      have hpos : 0 < (root.entries.filter (fun e => e.Ino = i)).length := by omega
      obtain ⟨e, he⟩ := List.exists_mem_of_length_pos hpos
      rw [List.mem_filter] at he
      exact ⟨e, he.1, by simpa using he.2⟩
    have h3 := visitAll_filter_new rs.Dev i ⟨rs.Dev, i, 2, b⟩ root.entries ⟨⟨0, 0⟩, []⟩
      (by simp) (entries_dev rs.Dev root hclean) hall hex
    refine ⟨h1, ?_, ?_⟩
    · rw [h2, usageOf, h3]; rfl
    · rw [h2, usageOf, h3]; rfl
  · intro r ino hne
    have hne2 : ¬ ino = r.Ino := fun h => hne h.symm
    by_cases hn : 1 < r.Nlink
    · simp [DiskUsageNew, hardlinkPair, hardlinkTree, Walk, walk, walkNames, walkFn, st, count,
        hn, hne, hne2, Node.isDir, skipDirToNil, Outcome.bump, toUint64, u64]
    · simp [DiskUsageNew, hardlinkPair, hardlinkTree, Walk, walk, walkNames, walkFn, st, count,
        hn, hne, hne2, Node.isDir, skipDirToNil, Outcome.bump, toUint64, u64]

/-- Witness of C2 on `/root` with `a` and `hardlink_to_a` (inode 11, `k = 2`). -/
theorem C2_hardlinks_counted_once_witness :
    (DiskUsageNew (hardlinkPair ⟨1, 10, 2, 8⟩ 11) "/root").err = none ∧
      (DiskUsageNew (hardlinkPair ⟨1, 10, 2, 8⟩ 11) "/root").usage.Bytes =
        ((usageOf 1 ((hardlinkTree ⟨1, 10, 2, 8⟩ 11).entries.filter
            (fun e => e.Ino ≠ 11))).Bytes + toUint64 8 * 512 % u64) % u64 ∧
      (DiskUsageNew (hardlinkPair ⟨1, 10, 2, 8⟩ 11) "/root").usage.Inodes =
        ((usageOf 1 ((hardlinkTree ⟨1, 10, 2, 8⟩ 11).entries.filter
            (fun e => e.Ino ≠ 11))).Inodes + 1) % u64 :=
  (C2_hardlinks_counted_once (hardlinkPair ⟨1, 10, 2, 8⟩ 11) "/root" ⟨1, 10, 2, 8⟩
    (hardlinkTree ⟨1, 10, 2, 8⟩ 11)
    11 2 8 (by decide) rfl rfl (by decide) (by decide) (by decide) (by decide)).1

/-- C3, as amended: an entry on a device other than the root's leaves `Bytes`,
`Inodes` and the seen-inode set unchanged (the callback answers `SkipDir`); when
the entry is a directory whose read does not fail with an error other than
"not exists", `DiskUsageNew` returns the same `UsageInfo` and error as on the tree
with that whole subtree removed, with at most one more callback invocation (the
directory itself, none of its descendants) and at most two more file-system
operations, whatever the size of the subtree. -/
theorem C3_foreign_subtree_pruned (fs : FS) (dir : String) (rs : Stat_t) (root t : Node)
    (p : List Nat) (hstat : fs.stat = .ok (.stat rs)) (hl : fs.lstat = .ok root)
    (ht : root.entryAt p = some t) (hf : t.foreignDir rs.Dev = true) :
    (∀ (c : Closure) (s : Stat_t), s.Dev ≠ rs.Dev →
        walkFn rs.Dev c (.ok (.stat s)) = (c, some .SkipDir)) ∧
      (DiskUsageNew (fs.withTree (root.prune p)) dir).usage = (DiskUsageNew fs dir).usage ∧
      (DiskUsageNew (fs.withTree (root.prune p)) dir).err = (DiskUsageNew fs dir).err ∧
      (DiskUsageNew fs dir).calls ≤ (DiskUsageNew (fs.withTree (root.prune p)) dir).calls + 1 ∧
      (DiskUsageNew fs dir).fsOps ≤ (DiskUsageNew (fs.withTree (root.prune p)) dir).fsOps + 2 := by
  refine ⟨fun c s hs => by simp [walkFn, hs], ?_⟩
  by_cases hdir : dir = ""
  · subst hdir
    simp [DiskUsageNew]
  · have h2 : (fs.withTree (root.prune p)).stat = .ok (.stat rs) := hstat
    rw [DiskUsageNew_of_root fs dir rs hdir hstat, DiskUsageNew_of_root _ dir rs hdir h2]
    obtain ⟨h1, _, h3, _, h5⟩ := walk_prune rs.Dev root p t ⟨⟨0, 0⟩, []⟩ ht hf
    rw [core_eq_iff] at h1
    simp only [FS.withTree, hl, Walk_ok, h1.1]
    refine ⟨trivial, trivial, h3, ?_⟩
    omega

/-- Witness of C3 on `/root` with the mounted directory `mnt` at position 0. -/
theorem C3_foreign_subtree_pruned_witness :
    (foreignMountTree.entryAt [0] = some mntDir ∧ mntDir.foreignDir 1 = true) ∧
      (DiskUsageNew (foreignMount.withTree (foreignMountTree.prune [0])) "/root").usage
        = (DiskUsageNew foreignMount "/root").usage ∧
      (DiskUsageNew (foreignMount.withTree (foreignMountTree.prune [0])) "/root").err
        = (DiskUsageNew foreignMount "/root").err ∧
      (DiskUsageNew foreignMount "/root").calls
        ≤ (DiskUsageNew (foreignMount.withTree (foreignMountTree.prune [0])) "/root").calls + 1 ∧
      (DiskUsageNew foreignMount "/root").fsOps
        ≤ (DiskUsageNew (foreignMount.withTree (foreignMountTree.prune [0])) "/root").fsOps + 2 :=
  ⟨⟨rfl, rfl⟩,
    (C3_foreign_subtree_pruned foreignMount "/root" ⟨1, 10, 3, 8⟩ foreignMountTree mntDir [0]
      rfl rfl rfl rfl).2⟩

/-- C3 as stated fails: in `/root` the directory `mnt` on another device cannot be
read (permission denied); the callback returns an error for it, the walk stops,
and the file `z` after it is not counted, whereas on the tree without `mnt` it is. -/
theorem C3_unreadable_foreign_dir_stops_walk :
    foreignUnreadableTree.entryAt [0] = some (.unreadable "mnt" (st 2 2 2 8) .permission) ∧
      (DiskUsageNew foreignUnreadable "/root").usage = ⟨4096, 1⟩ ∧
      (DiskUsageNew (foreignUnreadable.withTree (foreignUnreadableTree.prune [0]))
        "/root").usage = ⟨8192, 2⟩ :=
  ⟨rfl, by decide, by decide⟩

/-- C4 (the code at the failing input): `/root` holds the file `a` on another
device and then the file `b` on the root's device; the callback answers `SkipDir`
for `a`, the loop over `/root` ends, and `b` is never visited: two callback
invocations, one counted inode (the root), whereas without `a` in the listing
the root and `b` are both counted. -/
theorem C4_foreign_file_hides_siblings :
    (DiskUsageNew foreignFile "/root").usage = ⟨4096, 1⟩ ∧
      (DiskUsageNew foreignFile "/root").calls = 2 ∧
      (DiskUsageNew foreignFile "/root").err = none ∧
      (DiskUsageNew (foreignFile.withTree (foreignFileTree.prune [0])) "/root").usage
        = ⟨8192, 2⟩ := by
  decide

/-- C5: when the root can be inspected, `DiskUsageNew` returns a nil error, and
the same `UsageInfo` and nil error on the tree with the vanished entries (failed
`Lstat` with "not exists") omitted; when vanished entries are the only failures,
`filepath.Walk` itself returns a nil error. -/
theorem C5_vanished_entries_omitted (fs : FS) (dir : String) (rs : Stat_t) (root : Node)
    (hdir : dir ≠ "") (hstat : fs.stat = .ok (.stat rs)) (hl : fs.lstat = .ok root) :
    (DiskUsageNew fs dir).err = none ∧
      (DiskUsageNew (fs.withTree root.omitVanished) dir).err = none ∧
      (DiskUsageNew (fs.withTree root.omitVanished) dir).usage = (DiskUsageNew fs dir).usage ∧
      (root.onlyVanished = true → (Walk fs.lstat (walkFn rs.Dev) ⟨⟨0, 0⟩, []⟩).err = none) := by
  have h2 : (fs.withTree root.omitVanished).stat = .ok (.stat rs) := hstat
  rw [DiskUsageNew_of_root fs dir rs hdir hstat, DiskUsageNew_of_root _ dir rs hdir h2]
  refine ⟨rfl, rfl, ?_, ?_⟩
  · have h := walk_omitVanished rs.Dev root ⟨⟨0, 0⟩, []⟩
    rw [core_eq_iff] at h
    simp only [FS.withTree, hl, Walk_ok, h.1]
  · intro hv
    rw [hl, Walk_ok]
    rcases walk_onlyVanished rs.Dev root ⟨⟨0, 0⟩, []⟩ hv with h | h <;> simp [h, skipDirToNil]

/-- Witness of C5 on a directory with one vanished name. -/
theorem C5_vanished_entries_omitted_witness :
    (DiskUsageNew vanishing "/root").err = none ∧
      (DiskUsageNew (vanishing.withTree vanishingTree.omitVanished) "/root").err = none ∧
      (DiskUsageNew (vanishing.withTree vanishingTree.omitVanished) "/root").usage
        = (DiskUsageNew vanishing "/root").usage ∧
      (vanishingTree.onlyVanished = true →
        (Walk vanishing.lstat (walkFn (Stat_t.mk 1 10 2 8).Dev) ⟨⟨0, 0⟩, []⟩).err = none) :=
  C5_vanished_entries_omitted vanishing "/root" ⟨1, 10, 2, 8⟩ vanishingTree (by decide) rfl rfl

/-- C6, as amended: an entry on the root's device with link count 1 that the
callback visits with a nil error adds `blocks * 512` to `Bytes` and 1 to `Inodes`
(modulo `2^64`; exactly `blocks * 512` when the block count is not negative and
the sum stays below `2^64`) whatever the seen-inode set holds, leaves that set
unchanged, and the callback answers nil; a second such entry visited next is
counted as well, also with the same inode number. -/
theorem C6_single_link_always_counted (d : Nat) (c : Closure) (s : Stat_t)
    (hdev : s.Dev = d) (hlink : s.Nlink = 1) :
    (walkFn d c (.ok (.stat s))).2 = none ∧
      (walkFn d c (.ok (.stat s))).1.dedupedInodes = c.dedupedInodes ∧
      (((walkFn d c (.ok (.stat s))).1.usage.Bytes : Int)
        = ((c.usage.Bytes : Int) + s.Blocks * 512) % 2 ^ 64) ∧
      (walkFn d c (.ok (.stat s))).1.usage.Inodes = (c.usage.Inodes + 1) % 2 ^ 64 ∧
      (0 ≤ s.Blocks → c.usage.Bytes + s.Blocks.toNat * 512 < 2 ^ 64 →
        (walkFn d c (.ok (.stat s))).1.usage.Bytes = c.usage.Bytes + s.Blocks.toNat * 512) ∧
      (∀ s2 : Stat_t, s2.Dev = d → s2.Nlink = 1 →
        (visitAll d c [s, s2]).dedupedInodes = c.dedupedInodes ∧
        (((visitAll d c [s, s2]).usage.Bytes : Int)
          = ((c.usage.Bytes : Int) + s.Blocks * 512 + s2.Blocks * 512) % 2 ^ 64) ∧
        (visitAll d c [s, s2]).usage.Inodes = (c.usage.Inodes + 2) % 2 ^ 64) := by
  refine ⟨?_, ?_, ?_, ?_, ?_, ?_⟩
  · simp [walkFn, hdev, hlink]
  · simp [walkFn, hdev, hlink]
  · simp only [walkFn, hdev, hlink, count, toUint64, u64]
    simp
    omega
  · simp [walkFn, hdev, hlink, count, u64]
  · intro h1 h2
    simp only [walkFn, hdev, hlink, count, toUint64, u64]
    simp
    omega
  · intro s2 h2 h3
    refine ⟨?_, ?_, ?_⟩
    · simp [visitAll, walkFn, hdev, hlink, h2, h3]
    · simp only [visitAll, List.foldl, walkFn, hdev, hlink, h2, h3, count, toUint64, u64]
      simp
      omega
    · simp only [visitAll, List.foldl, walkFn, hdev, hlink, h2, h3, count, u64]
      simp

/-- Witness of C6: an entry of 8 blocks whose inode number 7 is already in the
seen-inode set takes the totals from 4096 bytes and 1 inode to 8192 bytes and 2 inodes. -/
theorem C6_single_link_always_counted_witness :
    walkFn 1 ⟨⟨4096, 1⟩, [7]⟩ (.ok (.stat ⟨1, 7, 1, 8⟩)) = (⟨⟨8192, 2⟩, [7]⟩, none) ∧
      visitAll 1 ⟨⟨4096, 1⟩, [7]⟩ [⟨1, 7, 1, 8⟩, ⟨1, 7, 1, 16⟩] = ⟨⟨16384, 3⟩, [7]⟩ ∧
      (walkFn 1 ⟨⟨4096, 1⟩, [7]⟩ (.ok (.stat ⟨1, 7, 1, 8⟩))).1.usage.Bytes
        = 4096 + (8 : Int).toNat * 512 :=
  ⟨by decide, by decide,
    (C6_single_link_always_counted 1 ⟨⟨4096, 1⟩, [7]⟩ ⟨1, 7, 1, 8⟩ rfl rfl).2.2.2.2.1
      (by decide) (by decide)⟩

/-- C6 as stated fails: in `/root` the directory `d` is on the root's device with
link count 1 and 8 blocks, and its read fails with "not exists"; the callback is
invoked for it (three invocations in all), answers nil and adds nothing: the
totals are those of the root and of the file `e` alone. -/
theorem C6_visited_with_error_not_counted :
    walkFn 1 ⟨⟨4096, 1⟩, []⟩ (.readFailed (st 1 11 1 8) .notExist) = (⟨⟨4096, 1⟩, []⟩, none) ∧
      (DiskUsageNew vanishedDir "/root").calls = 3 ∧
      (DiskUsageNew vanishedDir "/root").usage = ⟨8192, 2⟩ := by
  decide

/-- C7: `DiskUsageNew("")` returns the error "invalid directory" and the zero
`UsageInfo` for every file system, with no file-system operation and no callback
invocation performed. -/
theorem C7_empty_path_rejected (fs : FS) :
    DiskUsageNew fs "" = ⟨⟨0, 0⟩, some .invalidDirectory, 0, 0⟩ := by
  simp [DiskUsageNew]

/-- C8, as amended: on a tree without stat errors on a single device, `Bytes` is
the sum of `uint64(blocks) * 512` over the counted entries reduced modulo `2^64`,
`Inodes` is the number of counted entries reduced modulo `2^64`, and the root is
the first counted entry; for `/root` with the file `/root/a` (8 blocks, link count
1) and the empty directory `/root/b`, the two directories having distinct inode
numbers, `Inodes` is 3 and `Bytes` is 4096 plus the directories' allocations
modulo `2^64`, which is at least 4096 when the directories' block counts are
not negative and the total stays below `2^64`. -/
theorem C8_totals (fs : FS) (dir : String) (rs : Stat_t) (root : Node)
    (hdir : dir ≠ "") (hstat : fs.stat = .ok (.stat rs)) (hl : fs.lstat = .ok root)
    (hclean : root.clean rs.Dev = true) :
    ((DiskUsageNew fs dir).err = none ∧
      (DiskUsageNew fs dir).usage.Bytes = bytesOf (countedEntries root.entries) % u64 ∧
      (DiskUsageNew fs dir).usage.Inodes = (countedEntries root.entries).length % u64 ∧
      (∃ s, root.sys = .stat s ∧ (countedEntries root.entries).head? = some s)) ∧
    (∀ (d rootIno aIno bIno rootNlink bNlink : Nat) (rootBlocks bBlocks : Int),
      rootIno ≠ bIno →
      (DiskUsageNew (endToEnd d rootIno aIno bIno rootNlink bNlink rootBlocks bBlocks)
          "/root").usage.Inodes = 3 ∧
        (DiskUsageNew (endToEnd d rootIno aIno bIno rootNlink bNlink rootBlocks bBlocks)
          "/root").usage.Bytes
          = (toUint64 rootBlocks * 512 + 4096 + toUint64 bBlocks * 512) % u64 ∧
        (0 ≤ rootBlocks → 0 ≤ bBlocks → (rootBlocks + bBlocks + 8) * 512 < 2 ^ 64 →
          4096 ≤ (DiskUsageNew (endToEnd d rootIno aIno bIno rootNlink bNlink rootBlocks
            bBlocks) "/root").usage.Bytes)) := by
  constructor
  · obtain ⟨h1, h2⟩ := DiskUsageNew_clean fs dir rs root hdir hstat hl hclean
    rw [h2, usageOf_counted rs.Dev root.entries (entries_dev rs.Dev root hclean)]
    obtain ⟨s, l, hs, hl2⟩ := clean_root_entries rs.Dev root hclean
    exact ⟨h1, rfl, rfl, s, hs, by rw [hl2]; exact countedEntries_head s l⟩
  · intro d rootIno aIno bIno rootNlink bNlink rootBlocks bBlocks hne
    have hne2 : ¬ bIno = rootIno := fun h => hne h.symm
    have hb : (DiskUsageNew (endToEnd d rootIno aIno bIno rootNlink bNlink rootBlocks bBlocks)
          "/root").usage.Bytes
          = (toUint64 rootBlocks * 512 + 4096 + toUint64 bBlocks * 512) % u64 := by
      by_cases hn : 1 < rootNlink <;> by_cases hm : 1 < bNlink <;>
        simp [DiskUsageNew, endToEnd, endToEndTree, Walk, walk, walkNames, walkFn, st, count,
          hn, hm, hne, hne2, Node.isDir, skipDirToNil, Outcome.bump, u64] <;>
        simp [toUint64]
    refine ⟨?_, hb, ?_⟩
    · by_cases hn : 1 < rootNlink <;> by_cases hm : 1 < bNlink <;>
        simp [DiskUsageNew, endToEnd, endToEndTree, Walk, walk, walkNames, walkFn, st, count,
          hn, hm, hne, hne2, Node.isDir, skipDirToNil, Outcome.bump, u64]
    · intro h1 h2 h3
      rw [hb]
      simp only [toUint64, u64]
      omega

/-- Witness of C8 on `/root` with `a` and `b`, every directory holding 8 blocks. -/
theorem C8_totals_witness :
    (DiskUsageNew (endToEnd 1 10 11 12 3 2 8 8) "/root").err = none ∧
      (DiskUsageNew (endToEnd 1 10 11 12 3 2 8 8) "/root").usage.Bytes
        = bytesOf (countedEntries (endToEndTree 1 10 11 12 3 2 8 8).entries) % u64 ∧
      (DiskUsageNew (endToEnd 1 10 11 12 3 2 8 8) "/root").usage.Inodes
        = (countedEntries (endToEndTree 1 10 11 12 3 2 8 8).entries).length % u64 :=
  have h := (C8_totals (endToEnd 1 10 11 12 3 2 8 8) "/root" ⟨1, 10, 3, 8⟩
    (endToEndTree 1 10 11 12 3 2 8 8)
    (by decide) rfl rfl (by decide)).1
  ⟨h.1, h.2.1, h.2.2.1⟩

/-- C8 as stated fails: with a root directory of `2^55 - 8` blocks the 64-bit sum
wraps to 0, so `Bytes` is below 4096 although `/root/a` holds 8 blocks. -/
theorem C8_bytes_wrap :
    (DiskUsageNew (endToEnd 1 10 11 12 3 2 (2 ^ 55 - 8) 0) "/root").usage = ⟨0, 3⟩ ∧
      ¬ 4096 ≤ (DiskUsageNew (endToEnd 1 10 11 12 3 2 (2 ^ 55 - 8) 0) "/root").usage.Bytes := by
  decide

/-- C9: for a non-empty path whose `os.Stat` fails, or whose metadata is not a
`*syscall.Stat_t`, `DiskUsageNew` returns a non-nil error and the zero `UsageInfo`,
and the walk callback is never invoked (the only file-system operation is the
root `Stat`). -/
theorem C9_root_failure (fs : FS) (dir : String) (hdir : dir ≠ "")
    (hroot : ∀ s, fs.stat ≠ .ok (.stat s)) :
    (DiskUsageNew fs dir).err ≠ none ∧ (DiskUsageNew fs dir).usage = ⟨0, 0⟩ ∧
      (DiskUsageNew fs dir).calls = 0 ∧ (DiskUsageNew fs dir).fsOps = 1 := by
  unfold DiskUsageNew
  rw [if_neg hdir]
  cases h : fs.stat with
  | error e => simp
  | ok sys =>
      cases sys with
      | stat s => exact absurd h (hroot s)
      | nil => simp
      | unknown => simp

/-- Witness of C9 on a path that does not exist. -/
theorem C9_root_failure_witness :
    (DiskUsageNew noRoot "/root").err ≠ none ∧ (DiskUsageNew noRoot "/root").usage = ⟨0, 0⟩ ∧
      (DiskUsageNew noRoot "/root").calls = 0 ∧ (DiskUsageNew noRoot "/root").fsOps = 1 :=
  C9_root_failure noRoot "/root" (by decide) (by intro s h; cases h)

/-- C10, as amended: for every subprocess outcome, a non-zero exit status makes
`GetDirInodeUsage` return a non-nil error with value 0 and makes `GetDirDiskUsage`
either return a non-nil error with value 0 or end in `log.Fatal` (standard output
could not be read); each returns a nil error only when the exit status is zero;
what the subprocess wrote to its error output has no influence on the result. -/
theorem C10_exit_status_decides (p : Proc) (dir : String) :
    (p.exitStatus ≠ 0 →
      (∃ e, GetDirInodeUsage p dir = .ret 0 (some e)) ∧
      (GetDirDiskUsage p dir = .fatal ∨ ∃ e, GetDirDiskUsage p dir = .ret 0 (some e))) ∧
    (∀ v, GetDirDiskUsage p dir = .ret v none → p.exitStatus = 0) ∧
    (∀ v, GetDirInodeUsage p dir = .ret v none → p.exitStatus = 0) ∧
    (∀ s, GetDirDiskUsage { p with stderr := s } dir = GetDirDiskUsage p dir ∧
      GetDirInodeUsage { p with stderr := s } dir = GetDirInodeUsage p dir) := by
  refine ⟨?_, ?_, ?_, fun s => ⟨rfl, rfl⟩⟩
  · intro h
    constructor
    · unfold GetDirInodeUsage
      split_ifs <;> simp
    · unfold GetDirDiskUsage
      split_ifs <;> simp
  · intro v hv
    by_contra h
    unfold GetDirDiskUsage at hv
    split_ifs at hv <;> simp at hv
  · intro v hv
    by_contra h
    unfold GetDirInodeUsage at hv
    split_ifs at hv <;> simp at hv

/-- Witness of C10 on a subprocess that exits with status 1. -/
theorem C10_exit_status_decides_witness :
    (∃ e, GetDirInodeUsage failedProc "/d" = .ret 0 (some e)) ∧
      (GetDirDiskUsage failedProc "/d" = .fatal ∨
        ∃ e, GetDirDiskUsage failedProc "/d" = .ret 0 (some e)) :=
  (C10_exit_status_decides failedProc "/d").1 (by decide)

/-- C10 as stated fails: the subprocess wrote to its error output and exited with
status 0, and both functions return a value with a nil error. -/
theorem C10_stderr_ignored :
    warnProc.stderr ≠ "" ∧ warnProc.exitStatus = 0 ∧
      GetDirDiskUsage warnProc "/d" = .ret 4096 none ∧
      GetDirInodeUsage warnProc "/d" = .ret 5 none := by
  decide

end Bench
